import Mathlib

/-!
Shallow embedding of `megatron/inference/text_generation/forward_step.py`.

The file models the pipeline-parallel inference forward step:
`ForwardStep.__call__` decides between a single forward pass and a chunked
(micro-batched) execution, `_forward_step_helper` performs one
receive / compute / send cycle, `_with_pipelining_forward_step` drives the
micro-batch loop while updating the shared `InferenceContext` offsets, and
`_allocate_recv_buffer` / `_get_recv_buffer_dtype` implement the hand-off
buffer policy.

Tensors are modelled by shape and dtype; the model forward pass is an
opaque callable that may fail (a Python exception is `Except.error`), and
the communication calls are recorded as an event trace so that ordering
claims can be stated.
-/

/-- Torch dtypes that matter here: `torch.float` is `float32`. -/
inductive DType where
  | float32 : DType
  | float16 : DType
  | bfloat16 : DType
deriving DecidableEq

/-- A tensor abstracted to its shape and dtype (contents are opaque). -/
structure Tensor where
  shape : List Nat
  dtype : DType
deriving DecidableEq

/-- Embeds `torch.numel`: product of the dimensions. -/
def Tensor.numel (t : Tensor) : Nat := t.shape.foldl (fun a b => a * b) 1

/-- The `tokens` (and `position_ids`) tensor: `size(0)` is the batch
dimension, `size(1)` the sequence dimension. -/
structure Tokens2D where
  size0 : Nat
  size1 : Nat
deriving DecidableEq

/-- The fields of the global `args` object that `forward_step.py` reads. -/
structure Args where
  pipeline_model_parallel_size : Nat
  inference_batch_times_seqlen_threshold : Int
  padded_vocab_size : Nat
  hidden_size : Nat
  fp32_residual_connection : Bool
  params_dtype : DType
deriving DecidableEq

/-- The `mpu` topology oracle: whether this rank is the first / last
pipeline stage. -/
structure PipelineTopology where
  is_pipeline_first_stage : Bool
  is_pipeline_last_stage : Bool
deriving DecidableEq

/-- The mutable shared inference context: the two integer offsets the
scheduler maintains. -/
structure InferenceContext where
  sequence_len_offset : Nat
  batch_size_offset : Nat
deriving DecidableEq

/-- Embeds `_get_recv_buffer_dtype(args)`. -/
def _get_recv_buffer_dtype (args : Args) : DType :=
  if args.fp32_residual_connection then DType.float32 else args.params_dtype

/-- Embeds `_allocate_recv_buffer(batch_size, sequence_length)`: `None` on
the first stage, otherwise an uninitialized `(s, b, h)` buffer. -/
def _allocate_recv_buffer (mpu : PipelineTopology) (args : Args)
    (batch_size sequence_length : Nat) : Option Tensor :=
  if mpu.is_pipeline_first_stage then none
  else some { shape := [sequence_length, batch_size, args.hidden_size],
              dtype := _get_recv_buffer_dtype args }

/-- The model forward result: either a bare tensor or a tuple whose first
element is the activation tensor. -/
inductive ModelOutput where
  | single (t : Tensor) : ModelOutput
  | tuple (first : Tensor) (rest : List Tensor) : ModelOutput
deriving DecidableEq

/-- Embeds `if isinstance(output_tensor, tuple): output_tensor = output_tensor[0]`. -/
def ModelOutput.unwrap : ModelOutput → Tensor
  | ModelOutput.single t => t
  | ModelOutput.tuple t _ => t

/-- The opaque model callable.  Arguments: the batch start of the slice of
`tokens` being processed, the slice's batch size, the slice's sequence
length, and the inference context the model observes.  `Except.error`
models a raised exception. -/
def ModelFn : Type :=
  Nat → Nat → Nat → InferenceContext → Except Unit ModelOutput

/-- Observable actions of one rank, in program order: a blocking receive
into a buffer, a model forward pass (recording the slice it runs on and the
`batch_size_offset` it observes), a send to the next stage, and a write of
`batch_size_offset`. -/
inductive Event where
  | recv (buffer : Tensor) : Event
  | forward (start batch_size observed_batch_size_offset : Nat) : Event
  | send : Event
  | offsetUpdate (new_batch_size_offset : Nat) : Event
deriving DecidableEq

/-- The receive of `_forward_step_helper`: it happens only when a buffer is
present and non-empty. -/
def recvEvents (recv_buffer : Option Tensor) : List Event :=
  match recv_buffer with
  | some b => if 0 < b.numel then [Event.recv b] else []
  | none => []

/-- Embeds `if recv_buffer is None: recv_buffer = _allocate_recv_buffer(...)`
at the top of `_forward_step_helper`. -/
def effectiveRecvBuffer (mpu : PipelineTopology) (args : Args)
    (batch_size sequence_length : Nat) (recv_buffer : Option Tensor) : Option Tensor :=
  match recv_buffer with
  | none => _allocate_recv_buffer mpu args batch_size sequence_length
  | some b => some b

/-- Embeds `ForwardStep._forward_step_helper`: allocate a buffer when none was
given, receive from the previous stage, run the model forward (unwrapping a
tuple result), send to the next stage.  Returns the activation tensor (or
the propagated exception) together with the communication events in program
order. -/
def _forward_step_helper (mpu : PipelineTopology) (args : Args) (model : ModelFn)
    (start batch_size sequence_length : Nat) (ctx : InferenceContext)
    (recv_buffer : Option Tensor) : Except Unit Tensor × List Event :=
  let recv_buffer := effectiveRecvBuffer mpu args batch_size sequence_length recv_buffer
  let received := recvEvents recv_buffer
  match model start batch_size sequence_length ctx with
  | Except.error e => (Except.error e, received)
  | Except.ok out =>
      (Except.ok out.unwrap,
       received ++ [Event.forward start batch_size ctx.batch_size_offset, Event.send])

/-- The result of one top-level forward step: the logits (present only on
the last stage and only on success), the inference context after the call,
the event trace, and whether a model exception aborted the call. -/
structure StepResult where
  logits : Option Tensor
  ctx : InferenceContext
  events : List Event
  failed : Bool
deriving DecidableEq

/-- Embeds `ForwardStep._no_pipelining_forward_step`: one helper step, then
advance `sequence_len_offset` by `tokens.size(1)`; logits only on the last
stage.  An exception in the helper propagates before the offset update. -/
def _no_pipelining_forward_step (mpu : PipelineTopology) (args : Args) (model : ModelFn)
    (tokens : Tokens2D) (ctx : InferenceContext)
    (recv_buffer : Option Tensor) : StepResult :=
  let step := _forward_step_helper mpu args model 0 tokens.size0 tokens.size1 ctx recv_buffer
  match step.1 with
  | Except.error _ => { logits := none, ctx := ctx, events := step.2, failed := true }
  | Except.ok out =>
      { logits := if mpu.is_pipeline_last_stage then some out else none,
        ctx := { ctx with sequence_len_offset := ctx.sequence_len_offset + tokens.size1 },
        events := step.2,
        failed := false }

/-- Embeds `num_micro_batches, last_chunk = divmod(batch_size, micro_batch_size)`
followed by `if last_chunk > 0: num_micro_batches += 1`. -/
def numMicroBatches (batch_size micro_batch_size : Nat) : Nat :=
  let q := batch_size / micro_batch_size
  let r := batch_size % micro_batch_size
  if 0 < r then q + 1 else q

/-- Embeds `start = micro_batch_index * micro_batch_size`. -/
def chunkStart (micro_batch_size k : Nat) : Nat := k * micro_batch_size

/-- Embeds `end = min(start + micro_batch_size, batch_size)`. -/
def chunkEnd (batch_size micro_batch_size k : Nat) : Nat :=
  min (k * micro_batch_size + micro_batch_size) batch_size

/-- Embeds `this_micro_batch_size = end - start`. -/
def chunkSize (batch_size micro_batch_size k : Nat) : Nat :=
  chunkEnd batch_size micro_batch_size k - chunkStart micro_batch_size k

/-- The `[start, end)` ranges the chunked path iterates over, in order. -/
def microBatchRanges (batch_size micro_batch_size : Nat) : List (Nat × Nat) :=
  (List.range (numMicroBatches batch_size micro_batch_size)).map
    fun k => (chunkStart micro_batch_size k, chunkEnd batch_size micro_batch_size k)

/-- Embeds `seq_len = tokens.size(1) if recv_buffer_seq_length is None else
recv_buffer_seq_length` (the same selection appears in `__call__` and, as
`sequence_length`, in `_with_pipelining_forward_step`). -/
def seqLenOf (tokens : Tokens2D) (recv_buffer_seq_length : Option Nat) : Nat :=
  match recv_buffer_seq_length with
  | none => tokens.size1
  | some l => l

/-- Result of the micro-batch loop of `_with_pipelining_forward_step`. -/
structure LoopResult where
  ctx : InferenceContext
  events : List Event
  failed : Bool
deriving DecidableEq

/-- The `for micro_batch_index in range(num_micro_batches)` loop body of
`_with_pipelining_forward_step`, over the remaining indices: slice the
batch, drop the reused buffer on a short chunk (the rebinding persists, as
in the source), run the helper, then advance `batch_size_offset` by the
slice size.  An exception aborts the loop, leaving the context as it was
when the failing helper started.  (The logits row copy
`logits[start:end] = output` is content-level and has no shape effect, so
it is not recorded.) -/
def _pipelining_loop (mpu : PipelineTopology) (args : Args) (model : ModelFn)
    (tokens : Tokens2D) (batch_size micro_batch_size : Nat) :
    Option Tensor → List Nat → InferenceContext → LoopResult
  | _, [], ctx => { ctx := ctx, events := [], failed := false }
  | recv_buffer0, k :: ks, ctx =>
      let start := k * micro_batch_size
      let stop := min (start + micro_batch_size) batch_size
      let this_micro_batch_size := stop - start
      let recv_buffer :=
        if this_micro_batch_size ≠ micro_batch_size then none else recv_buffer0
      let step := _forward_step_helper mpu args model start this_micro_batch_size
                    tokens.size1 ctx recv_buffer
      match step.1 with
      | Except.error _ => { ctx := ctx, events := step.2, failed := true }
      | Except.ok _ =>
          let ctx2 : InferenceContext :=
            { ctx with batch_size_offset := ctx.batch_size_offset + this_micro_batch_size }
          let rest := _pipelining_loop mpu args model tokens batch_size micro_batch_size
                        recv_buffer ks ctx2
          { ctx := rest.ctx,
            events := step.2 ++ Event.offsetUpdate ctx2.batch_size_offset :: rest.events,
            failed := rest.failed }

/-- The logits buffer pre-allocation of `_with_pipelining_forward_step`:
last stage only, shape `(batch_size, sequence_length, padded_vocab_size)`,
dtype `torch.float32`. -/
def preallocLogits (mpu : PipelineTopology) (args : Args)
    (batch_size sequence_length : Nat) : Option Tensor :=
  if mpu.is_pipeline_last_stage then
    some { shape := [batch_size, sequence_length, args.padded_vocab_size],
           dtype := DType.float32 }
  else none

/-- Embeds `ForwardStep._with_pipelining_forward_step`: pre-allocate logits and a
reusable receive buffer, run the micro-batch loop, then advance
`sequence_len_offset` by `tokens.size(1)` once and reset
`batch_size_offset` to zero.  A propagated exception skips the offset
epilogue and returns no logits. -/
def _with_pipelining_forward_step (mpu : PipelineTopology) (args : Args) (model : ModelFn)
    (tokens : Tokens2D) (ctx : InferenceContext) (micro_batch_size : Nat)
    (recv_buffer_seq_length : Option Nat) : StepResult :=
  let batch_size := tokens.size0
  let sequence_length := seqLenOf tokens recv_buffer_seq_length
  let num_micro_batches := numMicroBatches batch_size micro_batch_size
  let logits := preallocLogits mpu args batch_size sequence_length
  let recv_buffer := _allocate_recv_buffer mpu args micro_batch_size sequence_length
  let r := _pipelining_loop mpu args model tokens batch_size micro_batch_size
             recv_buffer (List.range num_micro_batches) ctx
  if r.failed then
    { logits := none, ctx := r.ctx, events := r.events, failed := true }
  else
    { logits := logits,
      ctx := { sequence_len_offset := r.ctx.sequence_len_offset + tokens.size1,
               batch_size_offset := 0 },
      events := r.events,
      failed := false }

/-- The two fields `ForwardStep.__init__` derives from `args`. -/
structure ForwardStep where
  pipeline_size_larger_than_one : Bool
  pipelining_batch_x_seqlen : Int
deriving DecidableEq

/-- Embeds `ForwardStep.__init__`. -/
def ForwardStep.init (args : Args) : ForwardStep :=
  { pipeline_size_larger_than_one := decide (1 < args.pipeline_model_parallel_size),
    pipelining_batch_x_seqlen := args.inference_batch_times_seqlen_threshold }

/-- The chunking decision at the top of `ForwardStep.__call__`: `some m`
means the pipelining path is taken with `micro_batch_size = m`
(`max(1, threshold // seq_len)`, Python floor division); `none` means the
plain path.  `-1` is the disabling sentinel. -/
def ForwardStep.chunkDecision (fs : ForwardStep) (tokens : Tokens2D)
    (recv_buffer_seq_length : Option Nat) : Option Nat :=
  if fs.pipeline_size_larger_than_one = true ∧ fs.pipelining_batch_x_seqlen ≠ -1 then
    let seq_len := seqLenOf tokens recv_buffer_seq_length
    let current_batch_x_seqlen : Int := ((tokens.size0 * seq_len : Nat) : Int)
    if fs.pipelining_batch_x_seqlen ≤ current_batch_x_seqlen then
      some (max 1 (Int.fdiv fs.pipelining_batch_x_seqlen (seq_len : Int))).toNat
    else none
  else none

/-- Embeds `ForwardStep.__call__`: chunked path when the decision fires, otherwise
the plain path, pre-allocating a whole-batch receive buffer only when
`recv_buffer_seq_length` was supplied. -/
def ForwardStep.call (mpu : PipelineTopology) (args : Args) (model : ModelFn)
    (fs : ForwardStep) (tokens : Tokens2D) (ctx : InferenceContext)
    (recv_buffer_seq_length : Option Nat) : StepResult :=
  match fs.chunkDecision tokens recv_buffer_seq_length with
  | some micro_batch_size =>
      _with_pipelining_forward_step mpu args model tokens ctx micro_batch_size
        recv_buffer_seq_length
  | none =>
      let recv_buffer := match recv_buffer_seq_length with
        | none => none
        | some l => _allocate_recv_buffer mpu args tokens.size0 l
      _no_pipelining_forward_step mpu args model tokens ctx recv_buffer

/-- Total batch rows covered by the micro-batches `0 .. k-1`: the amount by
which the loop has advanced `batch_size_offset` after `k` completed
micro-batches. -/
def completedSizes (batch_size micro_batch_size k : Nat) : Nat :=
  ((List.range k).map (chunkSize batch_size micro_batch_size)).sum

/-- The event block the loop of `_with_pipelining_forward_step` emits for
micro-batch `k`, starting from entry offset `c`: the (possibly absent)
receive, then the forward pass observing the offset advanced by all
previously completed micro-batches, then the send, then the offset write. -/
def chunkSegment (mpu : PipelineTopology) (args : Args) (tokens : Tokens2D)
    (batch_size micro_batch_size : Nat) (recv_buffer0 : Option Tensor)
    (c k : Nat) : List Event :=
  recvEvents (effectiveRecvBuffer mpu args (chunkSize batch_size micro_batch_size k)
      tokens.size1
      (if chunkSize batch_size micro_batch_size k ≠ micro_batch_size then none
       else recv_buffer0))
    ++ [Event.forward (chunkStart micro_batch_size k)
          (chunkSize batch_size micro_batch_size k)
          (c + completedSizes batch_size micro_batch_size k),
        Event.send,
        Event.offsetUpdate (c + completedSizes batch_size micro_batch_size (k + 1))]

/-- The values written to `batch_size_offset`, in trace order. -/
def batchOffsetUpdates (events : List Event) : List Nat :=
  events.filterMap fun e => match e with
    | Event.offsetUpdate n => some n
    | _ => none

/-- A model callable that always succeeds (used to instantiate theorems at
concrete inputs). -/
def okModel : ModelFn := fun _ _ _ _ =>
  Except.ok (ModelOutput.single { shape := [1], dtype := DType.float32 })

/-- A model callable that raises exactly when invoked on the slice starting
at `fail_start` (used to instantiate the failure theorems). -/
def failModelAt (fail_start : Nat) : ModelFn := fun start _ _ _ =>
  if start = fail_start then Except.error ()
  else Except.ok (ModelOutput.single { shape := [1], dtype := DType.float32 })

/-- A one-stage pipeline rank: both first and last. -/
def mpuSingle : PipelineTopology :=
  { is_pipeline_first_stage := true, is_pipeline_last_stage := true }

/-- An interior rank of a longer pipeline. -/
def mpuMiddle : PipelineTopology :=
  { is_pipeline_first_stage := false, is_pipeline_last_stage := false }

/-- The terminal rank of a longer pipeline. -/
def mpuLast : PipelineTopology :=
  { is_pipeline_first_stage := false, is_pipeline_last_stage := true }

/-- Arguments with a single pipeline stage (pipelining never fires). -/
def argsNoPipe : Args :=
  { pipeline_model_parallel_size := 1,
    inference_batch_times_seqlen_threshold := 512,
    padded_vocab_size := 100, hidden_size := 8,
    fp32_residual_connection := false, params_dtype := DType.float16 }

/-- Arguments with two pipeline stages and a low chunking threshold. -/
def argsPipe : Args :=
  { pipeline_model_parallel_size := 2,
    inference_batch_times_seqlen_threshold := 4,
    padded_vocab_size := 16, hidden_size := 8,
    fp32_residual_connection := false, params_dtype := DType.float16 }

/-! ### Arithmetic facts about the micro-batch plan -/

/-- Every scheduled micro-batch starts strictly inside the batch. -/
theorem chunkStart_lt {B M k : Nat} (hM : 1 ≤ M) (hk : k < numMicroBatches B M) :
    k * M < B := by
  have hdm := Nat.div_add_mod B M
  rw [Nat.mul_comm] at hdm
  have hmod : B % M < M := Nat.mod_lt _ (by omega)
  unfold numMicroBatches at hk
  by_cases h : 0 < B % M
  · simp only [if_pos h] at hk
    have h3 : k * M ≤ B / M * M := Nat.mul_le_mul_right M (by omega)
    omega
  · simp only [if_neg h] at hk
    have h3 : (k + 1) * M ≤ B / M * M := Nat.mul_le_mul_right M (by omega)
    rw [Nat.succ_mul] at h3
    omega

/-- The plan covers the whole batch. -/
theorem batch_le_num_mul {B M : Nat} (hM : 1 ≤ M) :
    B ≤ numMicroBatches B M * M := by
  have hdm := Nat.div_add_mod B M
  rw [Nat.mul_comm] at hdm
  have hmod : B % M < M := Nat.mod_lt _ (by omega)
  unfold numMicroBatches
  by_cases h : 0 < B % M
  · simp only [if_pos h]
    rw [Nat.succ_mul]
    omega
  · simp only [if_neg h]
    omega

/-- A short micro-batch can only be the last one of the plan. -/
theorem short_chunk_is_last {B M k : Nat} (hM : 1 ≤ M)
    (hk : k < numMicroBatches B M)
    (hs : chunkSize B M k ≠ M) : numMicroBatches B M ≤ k + 1 := by
  by_contra h
  push_neg at h
  have h2 := chunkStart_lt hM (show k + 1 < numMicroBatches B M from h)
  apply hs
  unfold chunkSize chunkEnd chunkStart
  rw [Nat.succ_mul] at h2
  omega

/-- Unfolding `completedSizes` one micro-batch at a time. -/
theorem completedSizes_succ (B M k : Nat) :
    completedSizes B M (k + 1) = completedSizes B M k + chunkSize B M k := by
  unfold completedSizes
  rw [List.range_succ, List.map_append, List.sum_append]
  simp

/-- Closed form: after `k` micro-batches the loop has advanced by
`min (k * M) B` rows. -/
theorem completedSizes_eq_min {B M : Nat} (hM : 1 ≤ M) :
    ∀ k, k ≤ numMicroBatches B M → completedSizes B M k = min (k * M) B := by
  intro k
  induction k with
  | zero => intro _; simp [completedSizes]
  | succ k ih =>
      intro hk
      have hlt : k < numMicroBatches B M := by omega
      have h1 := chunkStart_lt hM hlt
      rw [completedSizes_succ, ih (by omega)]
      unfold chunkSize chunkEnd chunkStart
      rw [Nat.succ_mul]
      omega

/-- The whole plan covers exactly the batch. -/
theorem completedSizes_num (B M : Nat) (hM : 1 ≤ M) :
    completedSizes B M (numMicroBatches B M) = B := by
  rw [completedSizes_eq_min hM _ (le_refl _)]
  have := batch_le_num_mul (B := B) hM
  omega

/-- The index of the range containing row `x`. -/
theorem div_lt_numMicroBatches {B M x : Nat} (hM : 1 ≤ M) (hx : x < B) :
    x / M < numMicroBatches B M := by
  by_contra h
  push_neg at h
  have h1 : numMicroBatches B M * M ≤ x / M * M := Nat.mul_le_mul_right M h
  have h2 : x / M * M ≤ x := Nat.div_mul_le_self x M
  have h3 := batch_le_num_mul (B := B) hM
  omega

/-! ### Facts about the helper and the micro-batch loop -/

/-- Evaluation of `_forward_step_helper` when the model succeeds. -/
theorem forward_step_helper_ok {mpu args model start bsz seqLen ctx buf out}
    (h : model start bsz seqLen ctx = Except.ok out) :
    _forward_step_helper mpu args model start bsz seqLen ctx buf =
      (Except.ok out.unwrap,
       recvEvents (effectiveRecvBuffer mpu args bsz seqLen buf)
         ++ [Event.forward start bsz ctx.batch_size_offset, Event.send]) := by
  simp only [_forward_step_helper, h]

/-- Evaluation of `_forward_step_helper` when the model raises. -/
theorem forward_step_helper_err {mpu args model start bsz seqLen ctx buf e}
    (h : model start bsz seqLen ctx = Except.error e) :
    _forward_step_helper mpu args model start bsz seqLen ctx buf =
      (Except.error e, recvEvents (effectiveRecvBuffer mpu args bsz seqLen buf)) := by
  simp only [_forward_step_helper, h]

/-- The micro-batch loop never touches `sequence_len_offset`. -/
theorem pipelining_loop_seq (mpu : PipelineTopology) (args : Args) (model : ModelFn)
    (tokens : Tokens2D) (B M : Nat) :
    ∀ (ks : List Nat) (buf : Option Tensor) (ctx : InferenceContext),
      (_pipelining_loop mpu args model tokens B M buf ks ctx).ctx.sequence_len_offset
        = ctx.sequence_len_offset := by
  intro ks
  induction ks with
  | nil => intro buf ctx; rfl
  | cons k ks ih =>
      intro buf ctx
      simp only [_pipelining_loop]
      split
      · rfl
      · simp [ih]

/-- Evaluation of one loop iteration whose model call raises. -/
theorem pipelining_loop_cons_err {mpu args model tokens B M buf k ks ctx e}
    (he : model (k * M) (min (k * M + M) B - k * M) tokens.size1 ctx = Except.error e) :
    _pipelining_loop mpu args model tokens B M buf (k :: ks) ctx =
      { ctx := ctx,
        events := recvEvents (effectiveRecvBuffer mpu args (min (k * M + M) B - k * M)
          tokens.size1 (if min (k * M + M) B - k * M ≠ M then none else buf)),
        failed := true } := by
  simp only [_pipelining_loop, forward_step_helper_err he]

/-- Evaluation of one loop iteration whose model call succeeds. -/
theorem pipelining_loop_cons_ok {mpu args model tokens B M buf k ks ctx out}
    (ho : model (k * M) (min (k * M + M) B - k * M) tokens.size1 ctx = Except.ok out) :
    _pipelining_loop mpu args model tokens B M buf (k :: ks) ctx =
      { ctx := (_pipelining_loop mpu args model tokens B M
          (if min (k * M + M) B - k * M ≠ M then none else buf) ks
          { ctx with batch_size_offset :=
              ctx.batch_size_offset + (min (k * M + M) B - k * M) }).ctx,
        events := (recvEvents (effectiveRecvBuffer mpu args (min (k * M + M) B - k * M)
            tokens.size1 (if min (k * M + M) B - k * M ≠ M then none else buf))
          ++ [Event.forward (k * M) (min (k * M + M) B - k * M) ctx.batch_size_offset,
              Event.send])
          ++ Event.offsetUpdate (ctx.batch_size_offset + (min (k * M + M) B - k * M))
            :: (_pipelining_loop mpu args model tokens B M
                (if min (k * M + M) B - k * M ≠ M then none else buf) ks
                { ctx with batch_size_offset :=
                    ctx.batch_size_offset + (min (k * M + M) B - k * M) }).events,
        failed := (_pipelining_loop mpu args model tokens B M
          (if min (k * M + M) B - k * M ≠ M then none else buf) ks
          { ctx with batch_size_offset :=
              ctx.batch_size_offset + (min (k * M + M) B - k * M) }).failed } := by
  simp only [_pipelining_loop, forward_step_helper_ok ho]

/-- If the model raises at micro-batch `k` (having succeeded on all earlier
micro-batches), the loop reports failure, leaves `sequence_len_offset`
untouched, and has advanced `batch_size_offset` by exactly the sizes of the
completed micro-batches. -/
theorem pipelining_loop_fail (mpu : PipelineTopology) (args : Args) (model : ModelFn)
    (tokens : Tokens2D) (B M k : Nat)
    (hok : ∀ i ctx1, i < k →
      ∃ out, model (chunkStart M i) (chunkSize B M i) tokens.size1 ctx1 = Except.ok out)
    (herr : ∀ ctx1,
      ∃ e, model (chunkStart M k) (chunkSize B M k) tokens.size1 ctx1 = Except.error e) :
    ∀ (n j : Nat) (buf : Option Tensor) (ctx : InferenceContext), j ≤ k → k < j + n →
      (_pipelining_loop mpu args model tokens B M buf (List.range' j n) ctx).failed = true
      ∧ (_pipelining_loop mpu args model tokens B M buf
          (List.range' j n) ctx).ctx.sequence_len_offset = ctx.sequence_len_offset
      ∧ (_pipelining_loop mpu args model tokens B M buf
            (List.range' j n) ctx).ctx.batch_size_offset + completedSizes B M j
          = ctx.batch_size_offset + completedSizes B M k := by
  intro n
  induction n with
  | zero => intro j buf ctx h1 h2; omega
  | succ n ih =>
      intro j buf ctx hjk hkn
      rw [List.range'_succ]
      by_cases hej : j = k
      · subst hej
        obtain ⟨e, he⟩ := herr ctx
        simp only [chunkStart, chunkSize, chunkEnd] at he
        rw [pipelining_loop_cons_err he]
        exact ⟨rfl, rfl, rfl⟩
      · obtain ⟨out, ho⟩ := hok j ctx (by omega)
        simp only [chunkStart, chunkSize, chunkEnd] at ho
        rw [pipelining_loop_cons_ok ho]
        have hrec := ih (j + 1)
          (if min (j * M + M) B - j * M ≠ M then none else buf)
          { ctx with batch_size_offset :=
              ctx.batch_size_offset + (min (j * M + M) B - j * M) }
          (by omega) (by omega)
        have hsz : completedSizes B M (j + 1)
            = completedSizes B M j + (min (j * M + M) B - j * M) := by
          rw [completedSizes_succ]
          simp [chunkSize, chunkEnd, chunkStart]
        dsimp only at hrec ⊢
        refine ⟨hrec.1, hrec.2.1, ?_⟩
        have h3 := hrec.2.2
        omega

/-- Successful runs of the micro-batch loop: the trace is the concatenation
of the per-micro-batch segments (receive, then forward observing the
previously completed sizes, then send, then the offset write), and
`batch_size_offset` has advanced by all scheduled sizes. -/
theorem pipelining_loop_ok (mpu : PipelineTopology) (args : Args) (model : ModelFn)
    (tokens : Tokens2D) (B M : Nat) (hM : 1 ≤ M) (c : Nat) :
    ∀ (n j : Nat) (buf : Option Tensor) (ctx : InferenceContext),
      j + n ≤ numMicroBatches B M →
      ctx.batch_size_offset = c + completedSizes B M j →
      (_pipelining_loop mpu args model tokens B M buf (List.range' j n) ctx).failed = false →
      (_pipelining_loop mpu args model tokens B M buf (List.range' j n) ctx).events
        = ((List.range' j n).map (chunkSegment mpu args tokens B M buf c)).flatten
      ∧ (_pipelining_loop mpu args model tokens B M buf
            (List.range' j n) ctx).ctx.batch_size_offset
        = c + completedSizes B M (j + n) := by
  intro n
  induction n with
  | zero =>
      intro j buf ctx h1 h2 h3
      exact ⟨rfl, by simpa using h2⟩
  | succ n ih =>
      intro j buf ctx hle hoff hfail
      rw [List.range'_succ] at hfail ⊢
      cases hm : model (j * M) (min (j * M + M) B - j * M) tokens.size1 ctx with
      | error e =>
          rw [pipelining_loop_cons_err hm] at hfail
          simp at hfail
      | ok out =>
          rw [pipelining_loop_cons_ok hm] at hfail ⊢
          dsimp only at hfail ⊢
          have hsz : completedSizes B M (j + 1)
              = completedSizes B M j + (min (j * M + M) B - j * M) := by
            rw [completedSizes_succ]
            simp [chunkSize, chunkEnd, chunkStart]
          by_cases hsM : min (j * M + M) B - j * M = M
          · rw [if_neg (not_ne_iff.mpr hsM)] at hfail ⊢
            have hrec := ih (j + 1) buf
              { ctx with batch_size_offset :=
                  ctx.batch_size_offset + (min (j * M + M) B - j * M) }
              (by omega) (by dsimp only; omega) hfail
            refine ⟨?_, ?_⟩
            · rw [hrec.1]
              simp only [List.map_cons, List.flatten_cons, chunkSegment, chunkSize,
                chunkEnd, chunkStart, hoff, hsz, if_neg (not_ne_iff.mpr hsM),
                List.append_assoc, List.cons_append, List.nil_append,
                List.singleton_append, Nat.add_assoc]
            · have hidx : j + 1 + n = j + (n + 1) := by omega
              rw [hidx] at hrec
              exact hrec.2
          · have hj : j < numMicroBatches B M := by omega
            have hlast := short_chunk_is_last hM hj
              (by simpa [chunkSize, chunkEnd, chunkStart] using hsM)
            have hn : n = 0 := by omega
            subst hn
            rw [if_pos hsM] at hfail ⊢
            refine ⟨?_, ?_⟩
            · simp only [List.range'_zero, List.map_cons, List.map_nil,
                List.flatten_cons, List.flatten_nil, List.append_nil,
                chunkSegment, chunkSize, chunkEnd, chunkStart, hoff, hsz,
                if_pos hsM, _pipelining_loop,
                List.append_assoc, List.cons_append, List.nil_append,
                List.singleton_append, Nat.add_assoc]
            · simp only [List.range'_zero, _pipelining_loop, Nat.zero_add]
              omega

/-! ### Characterizations shared by the claim theorems -/

/-- Closed form of the chunking decision in `__call__`. -/
theorem chunkDecision_eq (args : Args) (tokens : Tokens2D) (r : Option Nat) :
    (ForwardStep.init args).chunkDecision tokens r =
      (if 1 < args.pipeline_model_parallel_size
          ∧ args.inference_batch_times_seqlen_threshold ≠ -1
          ∧ args.inference_batch_times_seqlen_threshold
              ≤ ((tokens.size0 * seqLenOf tokens r : Nat) : Int) then
        some (max 1 (Int.fdiv args.inference_batch_times_seqlen_threshold
          ((seqLenOf tokens r : Nat) : Int))).toNat
      else none) := by
  unfold ForwardStep.chunkDecision ForwardStep.init
  by_cases h1 : 1 < args.pipeline_model_parallel_size <;>
    by_cases h2 : args.inference_batch_times_seqlen_threshold = -1 <;>
      by_cases h3 : args.inference_batch_times_seqlen_threshold
          ≤ ((tokens.size0 * seqLenOf tokens r : Nat) : Int) <;>
        simp [h1, h2, h3]

/-- The element at index `i` of the micro-batch plan. -/
theorem microBatchRanges_get (B M i : Nat) (hi : i < (microBatchRanges B M).length) :
    (microBatchRanges B M).get ⟨i, hi⟩ = (chunkStart M i, chunkEnd B M i) := by
  simp [microBatchRanges]

/-- The length of the micro-batch plan. -/
theorem microBatchRanges_length (B M : Nat) :
    (microBatchRanges B M).length = numMicroBatches B M := by
  simp [microBatchRanges]

/-- The logits of the chunked path are either absent (failure) or the
pre-allocated buffer. -/
theorem with_pipelining_logits (mpu : PipelineTopology) (args : Args) (model : ModelFn)
    (tokens : Tokens2D) (ctx : InferenceContext) (M : Nat) (r : Option Nat) :
    ((_with_pipelining_forward_step mpu args model tokens ctx M r).logits = none
      ∧ (_with_pipelining_forward_step mpu args model tokens ctx M r).failed = true)
    ∨ ((_with_pipelining_forward_step mpu args model tokens ctx M r).logits
        = preallocLogits mpu args tokens.size0 (seqLenOf tokens r)
      ∧ (_with_pipelining_forward_step mpu args model tokens ctx M r).failed = false) := by
  unfold _with_pipelining_forward_step
  dsimp only
  split
  · left; exact ⟨rfl, rfl⟩
  · right; exact ⟨rfl, rfl⟩

/-- Unfolding of the chunked step in terms of its loop. -/
theorem with_pipelining_eq (mpu : PipelineTopology) (args : Args) (model : ModelFn)
    (tokens : Tokens2D) (ctx : InferenceContext) (M : Nat) (r : Option Nat)
    (lr : LoopResult)
    (hlr : _pipelining_loop mpu args model tokens tokens.size0 M
      (_allocate_recv_buffer mpu args M (seqLenOf tokens r))
      (List.range (numMicroBatches tokens.size0 M)) ctx = lr) :
    _with_pipelining_forward_step mpu args model tokens ctx M r =
      (if lr.failed then
        { logits := none, ctx := lr.ctx, events := lr.events, failed := true }
      else
        { logits := preallocLogits mpu args tokens.size0 (seqLenOf tokens r),
          ctx := { sequence_len_offset := lr.ctx.sequence_len_offset + tokens.size1,
                   batch_size_offset := 0 },
          events := lr.events, failed := false }) := by
  subst hlr
  rfl

/-- Successful chunked steps: the full trace and the final context. -/
theorem with_pipelining_ok (mpu : PipelineTopology) (args : Args) (model : ModelFn)
    (tokens : Tokens2D) (ctx : InferenceContext) (M : Nat) (r : Option Nat)
    (hM : 1 ≤ M)
    (h : (_with_pipelining_forward_step mpu args model tokens ctx M r).failed = false) :
    (_with_pipelining_forward_step mpu args model tokens ctx M r).events
      = ((List.range (numMicroBatches tokens.size0 M)).map
          (chunkSegment mpu args tokens tokens.size0 M
            (_allocate_recv_buffer mpu args M (seqLenOf tokens r))
            ctx.batch_size_offset)).flatten
    ∧ (_with_pipelining_forward_step mpu args model tokens ctx M r).ctx
        = { sequence_len_offset := ctx.sequence_len_offset + tokens.size1,
            batch_size_offset := 0 } := by
  rw [with_pipelining_eq mpu args model tokens ctx M r _ rfl] at h ⊢
  by_cases hrf : (_pipelining_loop mpu args model tokens tokens.size0 M
      (_allocate_recv_buffer mpu args M (seqLenOf tokens r))
      (List.range (numMicroBatches tokens.size0 M)) ctx).failed = true
  · rw [if_pos hrf] at h
    simp at h
  · have hrf2 : (_pipelining_loop mpu args model tokens tokens.size0 M
        (_allocate_recv_buffer mpu args M (seqLenOf tokens r))
        (List.range (numMicroBatches tokens.size0 M)) ctx).failed = false := by
      simpa using hrf
    rw [if_neg hrf]
    rw [List.range_eq_range'] at hrf2 ⊢
    have hok := pipelining_loop_ok mpu args model tokens tokens.size0 M hM
      ctx.batch_size_offset (numMicroBatches tokens.size0 M) 0
      (_allocate_recv_buffer mpu args M (seqLenOf tokens r)) ctx
      (by omega) (by simp [completedSizes]) hrf2
    refine ⟨hok.1, ?_⟩
    rw [pipelining_loop_seq]

/-- Unfolding of the plain (non-chunked) step in terms of the helper. -/
theorem no_pipelining_eq (mpu : PipelineTopology) (args : Args) (model : ModelFn)
    (tokens : Tokens2D) (ctx : InferenceContext) (buf : Option Tensor)
    (step : Except Unit Tensor × List Event)
    (hstep : _forward_step_helper mpu args model 0 tokens.size0 tokens.size1 ctx buf
      = step) :
    _no_pipelining_forward_step mpu args model tokens ctx buf =
      (match step.1 with
       | Except.error _ =>
           { logits := none, ctx := ctx, events := step.2, failed := true }
       | Except.ok out =>
           { logits := if mpu.is_pipeline_last_stage then some out else none,
             ctx := { ctx with
               sequence_len_offset := ctx.sequence_len_offset + tokens.size1 },
             events := step.2, failed := false }) := by
  subst hstep
  rfl

/-- The plain path never writes `batch_size_offset`. -/
theorem no_pipelining_batch_offset (mpu : PipelineTopology) (args : Args)
    (model : ModelFn) (tokens : Tokens2D) (ctx : InferenceContext)
    (buf : Option Tensor) :
    (_no_pipelining_forward_step mpu args model tokens ctx buf).ctx.batch_size_offset
      = ctx.batch_size_offset := by
  rw [no_pipelining_eq mpu args model tokens ctx buf _ rfl]
  split <;> rfl

/-- On success the plain path advances `sequence_len_offset` by
`tokens.size(1)`. -/
theorem no_pipelining_seq_offset (mpu : PipelineTopology) (args : Args)
    (model : ModelFn) (tokens : Tokens2D) (ctx : InferenceContext)
    (buf : Option Tensor)
    (h : (_no_pipelining_forward_step mpu args model tokens ctx buf).failed = false) :
    (_no_pipelining_forward_step mpu args model tokens ctx buf).ctx.sequence_len_offset
      = ctx.sequence_len_offset + tokens.size1 := by
  rw [no_pipelining_eq mpu args model tokens ctx buf _ rfl] at h ⊢
  revert h
  split
  · intro h; simp at h
  · intro _; rfl

/-- Off the last stage the plain path returns no logits. -/
theorem no_pipelining_logits_off_last (mpu : PipelineTopology) (args : Args)
    (model : ModelFn) (tokens : Tokens2D) (ctx : InferenceContext)
    (buf : Option Tensor) (h : mpu.is_pipeline_last_stage = false) :
    (_no_pipelining_forward_step mpu args model tokens ctx buf).logits = none := by
  rw [no_pipelining_eq mpu args model tokens ctx buf _ rfl]
  split
  · rfl
  · simp [h]

/-! ### Claim theorems -/

/-- C2: `ForwardStep.__call__` takes the chunked path iff the pipeline has
more than one stage, the threshold is not the `-1` sentinel, and
`tokens.size(0) * seq_len` reaches the threshold, with `seq_len` the
`recv_buffer_seq_length` override if given, else `tokens.size(1)`; the
micro-batch size is then `max(1, threshold // seq_len)`, always at least 1;
with the sentinel threshold chunking never triggers. -/
theorem c2_chunking_decision (args : Args) (tokens : Tokens2D) (r : Option Nat)
    (hseq : 0 < seqLenOf tokens r) :
    ((ForwardStep.init args).chunkDecision tokens r ≠ none ↔
      (1 < args.pipeline_model_parallel_size
        ∧ args.inference_batch_times_seqlen_threshold ≠ -1
        ∧ args.inference_batch_times_seqlen_threshold
            ≤ ((tokens.size0 * seqLenOf tokens r : Nat) : Int)))
    ∧ (∀ m, (ForwardStep.init args).chunkDecision tokens r = some m →
        m = (max 1 (Int.fdiv args.inference_batch_times_seqlen_threshold
              ((seqLenOf tokens r : Nat) : Int))).toNat
          ∧ 1 ≤ m)
    ∧ (args.inference_batch_times_seqlen_threshold = -1 →
        (ForwardStep.init args).chunkDecision tokens r = none)
    ∧ (∀ (mpu : PipelineTopology) (model : ModelFn) (ctx : InferenceContext) (m : Nat),
        (ForwardStep.init args).chunkDecision tokens r = some m →
        ForwardStep.call mpu args model (ForwardStep.init args) tokens ctx r
          = _with_pipelining_forward_step mpu args model tokens ctx m r) := by
  refine ⟨?_, ?_, ?_, ?_⟩
  · rw [chunkDecision_eq]
    split
    · rename_i hcond
      simp only [ne_eq, reduceCtorEq, not_false_eq_true, true_iff]
      exact hcond
    · rename_i hcond
      simp only [ne_eq, not_true_eq_false, false_iff]
      exact hcond
  · intro m hm
    rw [chunkDecision_eq] at hm
    revert hm
    split
    · intro hm
      injection hm with hm
      subst hm
      refine ⟨rfl, ?_⟩
      have h1 := le_max_left (1 : Int) (Int.fdiv args.inference_batch_times_seqlen_threshold
        ((seqLenOf tokens r : Nat) : Int))
      omega
    · intro hm
      simp at hm
  · intro h
    rw [chunkDecision_eq, if_neg]
    simp [h]
  · intro mpu model ctx m hm
    simp only [ForwardStep.call, hm]

/-- Witness for C2 at `argsPipe` and a 3×2 token batch: the decision fires
with micro-batch size `max(1, 4 // 2) = 2`. -/
theorem c2_chunking_decision_witness :
    0 < seqLenOf ⟨3, 2⟩ none
    ∧ (2 = (max 1 (Int.fdiv argsPipe.inference_batch_times_seqlen_threshold
          ((seqLenOf (⟨3, 2⟩ : Tokens2D) none : Nat) : Int))).toNat ∧ 1 ≤ 2) :=
  ⟨by decide, (c2_chunking_decision argsPipe ⟨3, 2⟩ none (by decide)).2.1 2 (by decide)⟩

/-- C3: the micro-batch ranges are nonempty, monotonically increasing and
pairwise non-overlapping, and their union is exactly `[0, B)`; for `B = 10`
and `M = 4` the plan is `[0,4), [4,8), [8,10)`. -/
theorem c3_micro_batch_plan (B M : Nat) (hB : 1 ≤ B) (hM : 1 ≤ M) :
    (∀ i (hi : i < (microBatchRanges B M).length),
        ((microBatchRanges B M).get ⟨i, hi⟩).1 < ((microBatchRanges B M).get ⟨i, hi⟩).2)
    ∧ (∀ i j (hi : i < (microBatchRanges B M).length)
          (hj : j < (microBatchRanges B M).length), i < j →
        ((microBatchRanges B M).get ⟨i, hi⟩).2 ≤ ((microBatchRanges B M).get ⟨j, hj⟩).1)
    ∧ (∀ x, x < B ↔ ∃ p ∈ microBatchRanges B M, p.1 ≤ x ∧ x < p.2)
    ∧ microBatchRanges 10 4 = [(0, 4), (4, 8), (8, 10)] := by
  refine ⟨?_, ?_, ?_, by decide⟩
  · intro i hi
    rw [microBatchRanges_get]
    have hi2 : i < numMicroBatches B M := by
      rwa [microBatchRanges_length] at hi
    have h1 := chunkStart_lt hM hi2
    simp only [chunkStart, chunkEnd]
    omega
  · intro i j hi hj hij
    rw [microBatchRanges_get, microBatchRanges_get]
    have h1 : (i + 1) * M ≤ j * M := Nat.mul_le_mul_right M (by omega)
    rw [Nat.succ_mul] at h1
    simp only [chunkStart, chunkEnd]
    omega
  · intro x
    constructor
    · intro hx
      have hk : x / M < numMicroBatches B M := div_lt_numMicroBatches hM hx
      refine ⟨(chunkStart M (x / M), chunkEnd B M (x / M)),
        List.mem_map.mpr ⟨x / M, List.mem_range.mpr hk, rfl⟩, ?_, ?_⟩
      · simpa [chunkStart] using Nat.div_mul_le_self x M
      · have h1 := Nat.div_add_mod x M
        rw [Nat.mul_comm] at h1
        have h2 : x % M < M := Nat.mod_lt _ (by omega)
        simp only [chunkEnd]
        omega
    · rintro ⟨p, hp, hpx1, hpx2⟩
      obtain ⟨k, hk, rfl⟩ := List.mem_map.mp hp
      simp only [chunkEnd] at hpx2
      omega

/-- Witness for C3 at `B = 10`, `M = 4`. -/
theorem c3_micro_batch_plan_witness :
    1 ≤ 10 ∧ 1 ≤ 4
    ∧ microBatchRanges 10 4 = [(0, 4), (4, 8), (8, 10)]
    ∧ (9 < 10 ↔ ∃ p ∈ microBatchRanges 10 4, p.1 ≤ 9 ∧ 9 < p.2) :=
  ⟨by decide, by decide, (c3_micro_batch_plan 10 4 (by decide) (by decide)).2.2.2,
    (c3_micro_batch_plan 10 4 (by decide) (by decide)).2.2.1 9⟩

/-- C5: the receive-buffer allocator returns nothing on the first pipeline
stage; elsewhere it returns a `(sequence_length, batch_size, hidden_size)`
buffer — `(5, 2, 8)` for `B = 2`, `S = 5`, `hidden = 8` — whose dtype is
`float32` under fp32-residual-connection mode and the configured parameter
dtype otherwise. -/
theorem c5_recv_buffer_allocation (mpu : PipelineTopology) (args : Args) (B S : Nat) :
    (mpu.is_pipeline_first_stage = true → _allocate_recv_buffer mpu args B S = none)
    ∧ (mpu.is_pipeline_first_stage = false →
        _allocate_recv_buffer mpu args B S
          = some { shape := [S, B, args.hidden_size],
                   dtype := if args.fp32_residual_connection then DType.float32
                            else args.params_dtype })
    ∧ (mpu.is_pipeline_first_stage = false → args.hidden_size = 8 →
        (_allocate_recv_buffer mpu args 2 5).map Tensor.shape = some [5, 2, 8]) := by
  refine ⟨?_, ?_, ?_⟩
  · intro h
    simp [_allocate_recv_buffer, h]
  · intro h
    simp [_allocate_recv_buffer, _get_recv_buffer_dtype, h]
  · intro h hh
    simp [_allocate_recv_buffer, h, hh]

/-- Witness for C5: the one-stage rank gets no buffer; an interior rank
with `hidden = 8` gets shape `(5, 2, 8)`. -/
theorem c5_recv_buffer_allocation_witness :
    (mpuSingle.is_pipeline_first_stage = true
      ∧ _allocate_recv_buffer mpuSingle argsPipe 2 5 = none)
    ∧ (mpuMiddle.is_pipeline_first_stage = false ∧ argsPipe.hidden_size = 8
      ∧ (_allocate_recv_buffer mpuMiddle argsPipe 2 5).map Tensor.shape = some [5, 2, 8]) :=
  ⟨⟨rfl, (c5_recv_buffer_allocation mpuSingle argsPipe 2 5).1 rfl⟩,
   ⟨rfl, rfl, (c5_recv_buffer_allocation mpuMiddle argsPipe 2 5).2.2 rfl rfl⟩⟩

/-- C6: on a rank that is not the last pipeline stage, `__call__` returns
no logits on every path (chunked, non-chunked, success or failure). -/
theorem c6_no_logits_on_non_last (mpu : PipelineTopology) (args : Args)
    (model : ModelFn) (fs : ForwardStep) (tokens : Tokens2D)
    (ctx : InferenceContext) (r : Option Nat)
    (h : mpu.is_pipeline_last_stage = false) :
    (ForwardStep.call mpu args model fs tokens ctx r).logits = none := by
  unfold ForwardStep.call
  cases hd : fs.chunkDecision tokens r with
  | some m =>
      dsimp only
      rcases with_pipelining_logits mpu args model tokens ctx m r with h1 | h1
      · exact h1.1
      · rw [h1.1]
        simp [preallocLogits, h]
  | none =>
      dsimp only
      exact no_pipelining_logits_off_last mpu args model tokens ctx _ h

/-- Witness for C6 on an interior rank with the chunked path firing. -/
theorem c6_no_logits_on_non_last_witness :
    mpuMiddle.is_pipeline_last_stage = false
    ∧ (ForwardStep.call mpuMiddle argsPipe okModel (ForwardStep.init argsPipe)
        ⟨3, 2⟩ ⟨0, 0⟩ none).logits = none :=
  ⟨rfl, c6_no_logits_on_non_last mpuMiddle argsPipe okModel (ForwardStep.init argsPipe)
    ⟨3, 2⟩ ⟨0, 0⟩ none rfl⟩

/-- C9: the non-chunked path never writes `batch_size_offset`: it is
preserved exactly (and hence ends at 0 only if it started at 0). -/
theorem c9_plain_path_preserves_batch_offset (mpu : PipelineTopology) (args : Args)
    (model : ModelFn) (fs : ForwardStep) (tokens : Tokens2D)
    (ctx : InferenceContext) (buf : Option Tensor) (r : Option Nat) :
    ((_no_pipelining_forward_step mpu args model tokens ctx buf).ctx.batch_size_offset
        = ctx.batch_size_offset)
    ∧ (fs.chunkDecision tokens r = none →
        (ForwardStep.call mpu args model fs tokens ctx r).ctx.batch_size_offset
          = ctx.batch_size_offset)
    ∧ ((_no_pipelining_forward_step mpu args model tokens ctx buf).ctx.batch_size_offset = 0
        ↔ ctx.batch_size_offset = 0) := by
  refine ⟨no_pipelining_batch_offset mpu args model tokens ctx buf, ?_,
    by rw [no_pipelining_batch_offset]⟩
  intro hd
  unfold ForwardStep.call
  rw [hd]
  dsimp only
  exact no_pipelining_batch_offset mpu args model tokens ctx _

/-- Witness for C9: a single-stage call with a nonzero incoming
`batch_size_offset` leaves it untouched. -/
theorem c9_plain_path_preserves_batch_offset_witness :
    ((ForwardStep.init argsNoPipe).chunkDecision ⟨2, 3⟩ none = none)
    ∧ (ForwardStep.call mpuSingle argsNoPipe okModel (ForwardStep.init argsNoPipe)
        ⟨2, 3⟩ ⟨0, 7⟩ none).ctx.batch_size_offset
        = (⟨0, 7⟩ : InferenceContext).batch_size_offset :=
  ⟨by decide,
   (c9_plain_path_preserves_batch_offset mpuSingle argsNoPipe okModel
      (ForwardStep.init argsNoPipe) ⟨2, 3⟩ ⟨0, 7⟩ none none).2.1 (by decide)⟩

/-- On success the chunked path advances `sequence_len_offset` by
`tokens.size(1)`. -/
theorem with_pipelining_seq_offset (mpu : PipelineTopology) (args : Args)
    (model : ModelFn) (tokens : Tokens2D) (ctx : InferenceContext) (M : Nat)
    (r : Option Nat)
    (h : (_with_pipelining_forward_step mpu args model tokens ctx M r).failed = false) :
    (_with_pipelining_forward_step mpu args model tokens ctx M r).ctx.sequence_len_offset
      = ctx.sequence_len_offset + tokens.size1 := by
  rw [with_pipelining_eq mpu args model tokens ctx M r _ rfl] at h ⊢
  by_cases hrf : (_pipelining_loop mpu args model tokens tokens.size0 M
      (_allocate_recv_buffer mpu args M (seqLenOf tokens r))
      (List.range (numMicroBatches tokens.size0 M)) ctx).failed = true
  · rw [if_pos hrf] at h
    simp at h
  · rw [if_neg hrf]
    dsimp only
    rw [pipelining_loop_seq]

/-- On success the chunked path resets `batch_size_offset` to zero. -/
theorem with_pipelining_batch_offset_zero (mpu : PipelineTopology) (args : Args)
    (model : ModelFn) (tokens : Tokens2D) (ctx : InferenceContext) (M : Nat)
    (r : Option Nat)
    (h : (_with_pipelining_forward_step mpu args model tokens ctx M r).failed = false) :
    (_with_pipelining_forward_step mpu args model tokens ctx M r).ctx.batch_size_offset
      = 0 := by
  rw [with_pipelining_eq mpu args model tokens ctx M r _ rfl] at h ⊢
  by_cases hrf : (_pipelining_loop mpu args model tokens tokens.size0 M
      (_allocate_recv_buffer mpu args M (seqLenOf tokens r))
      (List.range (numMicroBatches tokens.size0 M)) ctx).failed = true
  · rw [if_pos hrf] at h
    simp at h
  · rw [if_neg hrf]

/-- The function `batchOffsetUpdates` distributes over concatenation. -/
theorem batchOffsetUpdates_append (l1 l2 : List Event) :
    batchOffsetUpdates (l1 ++ l2) = batchOffsetUpdates l1 ++ batchOffsetUpdates l2 := by
  unfold batchOffsetUpdates
  exact List.filterMap_append l1 l2 _

/-- The function `batchOffsetUpdates` distributes over flattening. -/
theorem batchOffsetUpdates_flatten (L : List (List Event)) :
    batchOffsetUpdates L.flatten = (L.map batchOffsetUpdates).flatten := by
  induction L with
  | nil => rfl
  | cons a L ih =>
      simp only [List.flatten_cons, batchOffsetUpdates_append, ih, List.map_cons]

/-- Receives never write `batch_size_offset`. -/
theorem batchOffsetUpdates_recvEvents (buf : Option Tensor) :
    batchOffsetUpdates (recvEvents buf) = [] := by
  cases buf with
  | none => rfl
  | some b =>
      simp only [recvEvents]
      by_cases hb : 0 < b.numel
      · rw [if_pos hb]
        rfl
      · rw [if_neg hb]
        rfl

/-- Each micro-batch segment performs exactly one offset write: the total
size of the micro-batches completed so far. -/
theorem batchOffsetUpdates_chunkSegment (mpu : PipelineTopology) (args : Args)
    (tokens : Tokens2D) (B M : Nat) (buf : Option Tensor) (c k : Nat) :
    batchOffsetUpdates (chunkSegment mpu args tokens B M buf c k)
      = [c + completedSizes B M (k + 1)] := by
  unfold chunkSegment
  rw [batchOffsetUpdates_append, batchOffsetUpdates_recvEvents]
  rfl

/-- After `k + 1` micro-batches the loop has advanced exactly to the end of
range `k`. -/
theorem completedSizes_succ_eq_chunkEnd {B M : Nat} (hM : 1 ≤ M) (k : Nat)
    (hk : k < numMicroBatches B M) :
    completedSizes B M (k + 1) = chunkEnd B M k := by
  rw [completedSizes_eq_min hM (k + 1) (by omega)]
  unfold chunkEnd
  rw [Nat.succ_mul]

/-- Flattening a list of singletons is a map. -/
theorem flatten_singletons {α β : Type} (f : α → β) (l : List α) :
    (l.map fun a => [f a]).flatten = l.map f := by
  induction l with
  | nil => rfl
  | cons a l ih => simp [ih]

/-- C1 (counterexample to the claim as stated): with
`recv_buffer_seq_length = 7` and `tokens.size(1) = 3`, `seq_len` is 7 but a
successful call advances `sequence_len_offset` by 3, not 7. -/
theorem c1_seq_offset_counterexample :
    seqLenOf ⟨2, 3⟩ (some 7) = 7
    ∧ (ForwardStep.call mpuSingle argsNoPipe okModel (ForwardStep.init argsNoPipe)
        ⟨2, 3⟩ ⟨0, 0⟩ (some 7)).failed = false
    ∧ (ForwardStep.call mpuSingle argsNoPipe okModel (ForwardStep.init argsNoPipe)
        ⟨2, 3⟩ ⟨0, 0⟩ (some 7)).ctx.sequence_len_offset = 3
    ∧ ¬ (ForwardStep.call mpuSingle argsNoPipe okModel (ForwardStep.init argsNoPipe)
        ⟨2, 3⟩ ⟨0, 0⟩ (some 7)).ctx.sequence_len_offset = 0 + 7 := by
  decide

/-- C1 (amended): every successful top-level invocation advances
`sequence_len_offset` by exactly `tokens.size(1)` — not by the
`recv_buffer_seq_length` override — and exactly once, on the chunked and
the non-chunked path alike. -/
theorem c1_seq_offset_advances_by_tokens_len (mpu : PipelineTopology) (args : Args)
    (model : ModelFn) (fs : ForwardStep) (tokens : Tokens2D)
    (ctx : InferenceContext) (r : Option Nat)
    (h : (ForwardStep.call mpu args model fs tokens ctx r).failed = false) :
    (ForwardStep.call mpu args model fs tokens ctx r).ctx.sequence_len_offset
      = ctx.sequence_len_offset + tokens.size1 := by
  unfold ForwardStep.call at h ⊢
  cases hd : fs.chunkDecision tokens r with
  | some m =>
      rw [hd] at h
      dsimp only at h ⊢
      exact with_pipelining_seq_offset mpu args model tokens ctx m r h
  | none =>
      rw [hd] at h
      dsimp only at h ⊢
      exact no_pipelining_seq_offset mpu args model tokens ctx _ h

/-- Witness for the amended C1: a chunked two-stage call advances the
offset from 5 by `tokens.size(1) = 2`. -/
theorem c1_seq_offset_advances_witness :
    (ForwardStep.call mpuMiddle argsPipe okModel (ForwardStep.init argsPipe)
        ⟨3, 2⟩ ⟨5, 0⟩ none).failed = false
    ∧ (ForwardStep.call mpuMiddle argsPipe okModel (ForwardStep.init argsPipe)
        ⟨3, 2⟩ ⟨5, 0⟩ none).ctx.sequence_len_offset = 5 + 2 :=
  ⟨by decide,
   c1_seq_offset_advances_by_tokens_len mpuMiddle argsPipe okModel
     (ForwardStep.init argsPipe) ⟨3, 2⟩ ⟨5, 0⟩ none (by decide)⟩

/-- C10: on the last stage the chunked path pre-allocates a logits buffer
of dtype `float32` and shape `(batch_size, seq_len, padded_vocab_size)`
with `seq_len` the `recv_buffer_seq_length` override if given, else
`tokens.size(1)`; the parameter dtype and the fp32-residual flag do not
influence it. -/
theorem c10_chunked_logits_buffer (mpu : PipelineTopology) (args : Args)
    (model : ModelFn) (tokens : Tokens2D) (ctx : InferenceContext) (M : Nat)
    (r : Option Nat) (h : mpu.is_pipeline_last_stage = true) :
    preallocLogits mpu args tokens.size0 (seqLenOf tokens r)
      = some { shape := [tokens.size0, seqLenOf tokens r, args.padded_vocab_size],
               dtype := DType.float32 }
    ∧ ((_with_pipelining_forward_step mpu args model tokens ctx M r).failed = false →
        (_with_pipelining_forward_step mpu args model tokens ctx M r).logits
          = some { shape := [tokens.size0, seqLenOf tokens r, args.padded_vocab_size],
                   dtype := DType.float32 })
    ∧ (∀ args2 : Args, args2.padded_vocab_size = args.padded_vocab_size →
        preallocLogits mpu args2 tokens.size0 (seqLenOf tokens r)
          = preallocLogits mpu args tokens.size0 (seqLenOf tokens r)) := by
  refine ⟨by simp [preallocLogits, h], ?_, ?_⟩
  · intro hf
    rcases with_pipelining_logits mpu args model tokens ctx M r with h1 | h1
    · rw [h1.2] at hf
      cases hf
    · rw [h1.1]
      simp [preallocLogits, h]
  · intro args2 hv
    simp [preallocLogits, hv]

/-- Witness for C10: last stage, `B = 3`, override seq length 4,
vocab 16. -/
theorem c10_chunked_logits_buffer_witness :
    mpuLast.is_pipeline_last_stage = true
    ∧ (_with_pipelining_forward_step mpuLast argsPipe okModel ⟨3, 2⟩ ⟨0, 0⟩ 2
        (some 4)).failed = false
    ∧ (_with_pipelining_forward_step mpuLast argsPipe okModel ⟨3, 2⟩ ⟨0, 0⟩ 2
        (some 4)).logits = some { shape := [3, 4, 16], dtype := DType.float32 } :=
  ⟨rfl, by decide,
   (c10_chunked_logits_buffer mpuLast argsPipe okModel ⟨3, 2⟩ ⟨0, 0⟩ 2
     (some 4) rfl).2.1 (by decide)⟩

/-- C7: on a successful chunked execution the trace is exactly the ordered
concatenation of the per-micro-batch segments, each consisting of the
receive (when a buffer is present), then the model forward — which observes
`batch_size_offset` advanced by precisely the previously completed
micro-batch sizes — then the send, then the `batch_size_offset` write; so
receive precedes compute precedes send within a micro-batch, and each
offset write lands before the next micro-batch's receive. -/
theorem c7_receive_compute_send_order (mpu : PipelineTopology) (args : Args)
    (model : ModelFn) (tokens : Tokens2D) (ctx : InferenceContext) (M : Nat)
    (r : Option Nat) (hM : 1 ≤ M)
    (h : (_with_pipelining_forward_step mpu args model tokens ctx M r).failed = false) :
    (_with_pipelining_forward_step mpu args model tokens ctx M r).events
      = ((List.range (numMicroBatches tokens.size0 M)).map
          (chunkSegment mpu args tokens tokens.size0 M
            (_allocate_recv_buffer mpu args M (seqLenOf tokens r))
            ctx.batch_size_offset)).flatten
    ∧ (∀ (buf : Option Tensor) (c k : Nat),
        chunkSegment mpu args tokens tokens.size0 M buf c k
          = recvEvents (effectiveRecvBuffer mpu args (chunkSize tokens.size0 M k)
              tokens.size1
              (if chunkSize tokens.size0 M k ≠ M then none else buf))
            ++ [Event.forward (chunkStart M k) (chunkSize tokens.size0 M k)
                  (c + completedSizes tokens.size0 M k),
                Event.send,
                Event.offsetUpdate (c + completedSizes tokens.size0 M (k + 1))]) :=
  ⟨(with_pipelining_ok mpu args model tokens ctx M r hM h).1,
   fun _ _ _ => rfl⟩

/-- Witness for C7: interior rank, `B = 3`, `M = 2`, two micro-batches. -/
theorem c7_receive_compute_send_order_witness :
    1 ≤ 2
    ∧ (_with_pipelining_forward_step mpuMiddle argsPipe okModel ⟨3, 2⟩ ⟨0, 0⟩ 2
          none).events
        = ((List.range (numMicroBatches 3 2)).map
            (chunkSegment mpuMiddle argsPipe ⟨3, 2⟩ 3 2
              (_allocate_recv_buffer mpuMiddle argsPipe 2 (seqLenOf ⟨3, 2⟩ none))
              0)).flatten :=
  ⟨by decide,
   (c7_receive_compute_send_order mpuMiddle argsPipe okModel ⟨3, 2⟩ ⟨0, 0⟩ 2 none
     (by decide) (by decide)).1⟩

/-- C4: starting from `batch_size_offset = 0`, a completed invocation ends
with `batch_size_offset = 0` on every path, and during chunked execution
the offset written immediately after the micro-batch covering
`[start, end)` is exactly `end`. -/
theorem c4_batch_offset_bookkeeping (mpu : PipelineTopology) (args : Args)
    (model : ModelFn) (fs : ForwardStep) (tokens : Tokens2D)
    (ctx : InferenceContext) (r : Option Nat) (M : Nat)
    (h0 : ctx.batch_size_offset = 0) (hM : 1 ≤ M) :
    ((ForwardStep.call mpu args model fs tokens ctx r).failed = false →
      (ForwardStep.call mpu args model fs tokens ctx r).ctx.batch_size_offset = 0)
    ∧ ((_with_pipelining_forward_step mpu args model tokens ctx M r).failed = false →
        batchOffsetUpdates
            (_with_pipelining_forward_step mpu args model tokens ctx M r).events
          = (microBatchRanges tokens.size0 M).map Prod.snd) := by
  constructor
  · intro h
    unfold ForwardStep.call at h ⊢
    cases hd : fs.chunkDecision tokens r with
    | some m =>
        rw [hd] at h
        dsimp only at h ⊢
        exact with_pipelining_batch_offset_zero mpu args model tokens ctx m r h
    | none =>
        rw [hd] at h
        dsimp only at h ⊢
        rw [no_pipelining_batch_offset]
        exact h0
  · intro h
    rw [(with_pipelining_ok mpu args model tokens ctx M r hM h).1,
      batchOffsetUpdates_flatten, List.map_map, h0]
    have hmap : ∀ k ∈ List.range (numMicroBatches tokens.size0 M),
        (batchOffsetUpdates ∘ chunkSegment mpu args tokens tokens.size0 M
          (_allocate_recv_buffer mpu args M (seqLenOf tokens r)) 0) k
          = [chunkEnd tokens.size0 M k] := by
      intro k hk
      have hk2 := List.mem_range.mp hk
      simp only [Function.comp]
      rw [batchOffsetUpdates_chunkSegment,
        completedSizes_succ_eq_chunkEnd hM k hk2]
      simp
    rw [List.map_congr_left hmap, flatten_singletons]
    simp only [microBatchRanges, List.map_map]
    exact List.map_congr_left fun k _ => rfl

/-- Witness for C4: two-stage chunked call with `B = 3`, `M = 2`; the
offset writes are the range ends `[2, 3]` and the final offset is 0. -/
theorem c4_batch_offset_bookkeeping_witness :
    (⟨5, 0⟩ : InferenceContext).batch_size_offset = 0 ∧ 1 ≤ 2
    ∧ (ForwardStep.call mpuMiddle argsPipe okModel (ForwardStep.init argsPipe)
        ⟨3, 2⟩ ⟨5, 0⟩ none).ctx.batch_size_offset = 0
    ∧ batchOffsetUpdates (_with_pipelining_forward_step mpuMiddle argsPipe okModel
        ⟨3, 2⟩ ⟨5, 0⟩ 2 none).events = (microBatchRanges 3 2).map Prod.snd :=
  ⟨rfl, by decide,
   (c4_batch_offset_bookkeeping mpuMiddle argsPipe okModel (ForwardStep.init argsPipe)
     ⟨3, 2⟩ ⟨5, 0⟩ none 2 rfl (by decide)).1 (by decide),
   (c4_batch_offset_bookkeeping mpuMiddle argsPipe okModel (ForwardStep.init argsPipe)
     ⟨3, 2⟩ ⟨5, 0⟩ none 2 rfl (by decide)).2 (by decide)⟩

/-- C8: if the model raises on micro-batch `k` (after the earlier
micro-batches succeeded), the chunked invocation aborts with no logits,
`sequence_len_offset` keeps its pre-invocation value, and
`batch_size_offset` has advanced by exactly the sizes of micro-batches
`0 .. k-1`. -/
theorem c8_chunked_failure_state (mpu : PipelineTopology) (args : Args)
    (model : ModelFn) (tokens : Tokens2D) (ctx : InferenceContext) (M : Nat)
    (r : Option Nat) (k : Nat)
    (hk : k < numMicroBatches tokens.size0 M)
    (hok : ∀ i ctx1, i < k → ∃ out,
      model (chunkStart M i) (chunkSize tokens.size0 M i) tokens.size1 ctx1
        = Except.ok out)
    (herr : ∀ ctx1, ∃ e,
      model (chunkStart M k) (chunkSize tokens.size0 M k) tokens.size1 ctx1
        = Except.error e) :
    (_with_pipelining_forward_step mpu args model tokens ctx M r).failed = true
    ∧ (_with_pipelining_forward_step mpu args model tokens ctx M r).logits = none
    ∧ (_with_pipelining_forward_step mpu args model tokens ctx M r).ctx.sequence_len_offset
        = ctx.sequence_len_offset
    ∧ (_with_pipelining_forward_step mpu args model tokens ctx M r).ctx.batch_size_offset
        = ctx.batch_size_offset + completedSizes tokens.size0 M k := by
  have hfail := pipelining_loop_fail mpu args model tokens tokens.size0 M k hok herr
    (numMicroBatches tokens.size0 M) 0
    (_allocate_recv_buffer mpu args M (seqLenOf tokens r)) ctx (by omega) (by omega)
  rw [with_pipelining_eq mpu args model tokens ctx M r _ rfl]
  rw [List.range_eq_range']
  rw [if_pos hfail.1]
  dsimp only
  refine ⟨rfl, rfl, hfail.2.1, ?_⟩
  have h2 := hfail.2.2
  have h3 : completedSizes tokens.size0 M 0 = 0 := rfl
  omega

/-- Witness for C8: `B = 3`, `M = 2`, failure at micro-batch 1 (slice
start 2): only micro-batch 0 (2 rows) advanced the offset. -/
theorem c8_chunked_failure_state_witness :
    1 < numMicroBatches 3 2
    ∧ ((_with_pipelining_forward_step mpuMiddle argsPipe (failModelAt 2) ⟨3, 2⟩
          ⟨9, 4⟩ 2 none).failed = true
      ∧ (_with_pipelining_forward_step mpuMiddle argsPipe (failModelAt 2) ⟨3, 2⟩
          ⟨9, 4⟩ 2 none).logits = none
      ∧ (_with_pipelining_forward_step mpuMiddle argsPipe (failModelAt 2) ⟨3, 2⟩
          ⟨9, 4⟩ 2 none).ctx.sequence_len_offset = 9
      ∧ (_with_pipelining_forward_step mpuMiddle argsPipe (failModelAt 2) ⟨3, 2⟩
          ⟨9, 4⟩ 2 none).ctx.batch_size_offset = 4 + completedSizes 3 2 1) :=
  ⟨by decide,
   c8_chunked_failure_state mpuMiddle argsPipe (failModelAt 2) ⟨3, 2⟩ ⟨9, 4⟩ 2 none 1
     (by decide)
     (by
       intro i ctx1 hi
       have hi0 : i = 0 := by omega
       subst hi0
       exact ⟨ModelOutput.single { shape := [1], dtype := DType.float32 }, rfl⟩)
     (fun ctx1 => ⟨(), rfl⟩)⟩
